import Mathlib

/-!
Shallow embedding of the retrieval-to-answer pipeline of `lib/rag.ts` of the
ted-rag repository: retrieval filtering and sorting, candidate aggregation,
mode resolution, prompt composition, and the answer guardrails.

Modelling conventions: strings are Lean `String` (a list of characters);
JavaScript number scores are `ℚ`; metadata fields that may be absent are
`Option`s.  JavaScript `\s` and `trim` whitespace are modelled by the four
ASCII whitespace characters, which covers every string the pipeline itself
builds.  The external embedding call, vector-index query and chat-model call
are boundaries: the pipeline is parametrised by the raw match list the index
returns and by the text the chat model returns.
-/

namespace TedRag

/-- Whitespace test used to model JavaScript `trim` and the `\s` class. -/
def isWs (c : Char) : Bool :=
  c == ' ' || c == '\t' || c == '\r' || c == '\n'

/-- JavaScript `String.prototype.trim` on a character list: drop leading and
trailing whitespace. -/
def trimChars (l : List Char) : List Char :=
  ((l.dropWhile isWs).reverse.dropWhile isWs).reverse

/-- JavaScript `trim` on strings. -/
def strTrim (s : String) : String :=
  ⟨trimChars s.data⟩

/-- Whether the first list is a prefix of the second. -/
def charsLead : List Char → List Char → Bool
  | [], _ => true
  | _ :: _, [] => false
  | a :: as, b :: bs => a == b && charsLead as bs

/-- JavaScript `String.prototype.includes` on character lists: `needle`
occurs contiguously in the second argument. -/
def charsContains (needle : List Char) : List Char → Bool
  | [] => charsLead needle []
  | c :: cs => charsLead needle (c :: cs) || charsContains needle cs

/-- `hay.includes(needle)` on strings. -/
def strContains (hay needle : String) : Bool :=
  charsContains needle.data hay.data

/-- JavaScript `split(sep)` for a one-character separator. -/
def splitOnChar (sep : Char) : List Char → List (List Char)
  | [] => [[]]
  | c :: cs =>
    let rest := splitOnChar sep cs
    if c == sep then [] :: rest
    else
      match rest with
      | [] => [[c]]
      | r :: rs => (c :: r) :: rs

/-- JavaScript `toLowerCase`, modelled characterwise. -/
def strLower (s : String) : String :=
  ⟨s.data.map Char.toLower⟩

/-- JavaScript `Array.prototype.join`. -/
def joinSep (sep : String) : List String → String
  | [] => ""
  | [x] => x
  | x :: y :: ys => x ++ sep ++ joinSep sep (y :: ys)

/-- The numeric fields of RAG_CONFIG in lib/rag.ts (the model identifiers are
environment strings no claim depends on). -/
structure RagConfig where
  chunk_size : Nat
  overlap_ratio : ℚ
  top_k : Nat
  min_score : ℚ

/-- RAG_CONFIG of lib/rag.ts.  The rationals are written in reduced
normal form so that the kernel can evaluate comparisons against them;
`min_score_eq` below states that min_score is the source's 0.12. -/
def RAG_CONFIG : RagConfig :=
  { chunk_size := 1024, overlap_ratio := ⟨1, 5, by decide, by decide⟩,
    top_k := 25, min_score := ⟨3, 25, by decide, by decide⟩ }

/-- PublicContextChunk of lib/rag.ts. -/
structure PublicContextChunk where
  talk_id : String
  title : String
  chunk : String
  score : ℚ

/-- RetrievedMatch of lib/rag.ts. -/
structure RetrievedMatch where
  talk_id : String
  title : String
  speaker_1 : Option String
  topics : Option (List String)
  chunk : String
  score : ℚ

deriving instance DecidableEq for PublicContextChunk
deriving instance DecidableEq for RetrievedMatch

/-- Topics metadata as the vector index may deliver it: an actual array, a
comma-separated string, or absent. -/
inductive TopicsField where
  | list (xs : List String)
  | str (s : String)
  | absent

deriving instance DecidableEq for TopicsField

/-- One raw vector-index result as `retrieve` reads it: a score (`none`
models a non-number score, which the source treats as 0) and the optional
metadata fields, string-valued as the source coerces them. -/
structure RawMatch where
  score : Option ℚ
  talk_id : Option String
  id : Option String
  title : Option String
  speaker_1 : Option String
  topics : TopicsField
  chunk : Option String
  text : Option String

deriving instance DecidableEq for RawMatch

/-- The string branch of the topics parsing in `retrieve`: split on commas,
trim each piece, keep the non-empty ones. -/
def splitTopicsString (s : String) : List String :=
  (((splitOnChar ',' s.data).map trimChars).filter (fun l => !l.isEmpty)).map
    (fun l => (⟨l⟩ : String))

/-- The document identifier read from raw metadata: `md.talk_id ?? md.id ?? ""`. -/
def rawTalkId (r : RawMatch) : String :=
  match r.talk_id with
  | some s => s
  | none => r.id.getD ""

/-- The title read from raw metadata: `md.title ?? ""`. -/
def rawTitle (r : RawMatch) : String :=
  r.title.getD ""

/-- The speaker read from raw metadata: `md.speaker_1 ? String(md.speaker_1)
: undefined` (an empty string is falsy, hence dropped). -/
def rawSpeaker (r : RawMatch) : Option String :=
  match r.speaker_1 with
  | some s => if s = "" then none else some s
  | none => none

/-- The evidence text read from raw metadata: `md.chunk ?? md.text ?? ""`. -/
def rawChunk (r : RawMatch) : String :=
  match r.chunk with
  | some s => s
  | none => r.text.getD ""

/-- The topics read from raw metadata: an array is kept as delivered (its
entries already strings), a comma-separated string is split, trimmed and
filtered, anything else is absent. -/
def rawTopics (r : RawMatch) : Option (List String) :=
  match r.topics with
  | TopicsField.list xs => some xs
  | TopicsField.str s => some (splitTopicsString s)
  | TopicsField.absent => none

/-- The per-item normalization step of the loop in `retrieve`; `none` models
`continue` (the item is dropped). -/
def normalizeRaw (r : RawMatch) : Option RetrievedMatch :=
  let score := r.score.getD 0
  if score < RAG_CONFIG.min_score then none
  else if rawTalkId r = "" ∨ rawTitle r = "" ∨ rawChunk r = "" then none
  else some { talk_id := rawTalkId r, title := rawTitle r, speaker_1 := rawSpeaker r,
              topics := rawTopics r, chunk := rawChunk r, score := score }

/-- Insert `m` behind every element whose score is at least `m.score`: the
insertion step of a stable descending sort. -/
def insertByScore (m : RetrievedMatch) : List RetrievedMatch → List RetrievedMatch
  | [] => [m]
  | x :: xs => if x.score < m.score then m :: x :: xs else x :: insertByScore m xs

/-- A stable sort by descending score: the behaviour of the JavaScript
`sort((a, b) => b.score - a.score)` (stable per the language standard). -/
def sortByScoreDesc (l : List RetrievedMatch) : List RetrievedMatch :=
  l.foldl (fun acc m => insertByScore m acc) []

/-- The pure part of `retrieve` in lib/rag.ts: filter and normalize the raw
index matches, then sort by descending score. -/
def retrieve (raws : List RawMatch) : List RetrievedMatch :=
  sortByScoreDesc (raws.filterMap normalizeRaw)

/-- Append `m` to its talk's group, or open a new group at the end: one
insertion into the JavaScript `Map` of `buildCandidates` (whose keys
iterate in first-insertion order). -/
def pushToGroup (m : RetrievedMatch) :
    List (String × List RetrievedMatch) → List (String × List RetrievedMatch)
  | [] => [(m.talk_id, [m])]
  | (k, arr) :: rest =>
    if k = m.talk_id then (k, arr ++ [m]) :: rest
    else (k, arr) :: pushToGroup m rest

/-- Group matches by talk_id: keys in first-occurrence order, each group in
input order. -/
def groupByTalkId (ms : List RetrievedMatch) : List (String × List RetrievedMatch) :=
  ms.foldl (fun acc m => pushToGroup m acc) []

/-- One candidate from one group: the group's best match, its chunk replaced
by the evidence of the group's top two matches joined by the dashed
separator.  `none` only for the empty list, which `groupByTalkId` never
produces. -/
def mkCandidate (arr : List RetrievedMatch) : Option RetrievedMatch :=
  match sortByScoreDesc arr with
  | [] => none
  | best :: rest =>
    some { best with
           chunk := joinSep "\n\n---\n\n" (((best :: rest).take 2).map (fun e => e.chunk)) }

/-- The candidate-building loop of `buildCandidates`, including its early
`break` as soon as the accumulator reaches `maxTalks`. -/
def buildLoop (maxTalks : Nat) :
    List (String × List RetrievedMatch) → List RetrievedMatch → List RetrievedMatch
  | [], acc => acc
  | (_, arr) :: gs, acc =>
    match mkCandidate arr with
    | none => buildLoop maxTalks gs acc
    | some c =>
      if maxTalks ≤ acc.length + 1 then acc ++ [c]
      else buildLoop maxTalks gs (acc ++ [c])

/-- buildCandidates of lib/rag.ts. -/
def buildCandidates (ms : List RetrievedMatch) (maxTalks : Nat) : List RetrievedMatch :=
  (sortByScoreDesc (buildLoop maxTalks (groupByTalkId ms) [])).take maxTalks

/-- Strip a run of `front` characters from the start and a run of `back`
characters from the end (the edge-stripping regexes of cleanTopicList). -/
def stripEdges (front back : Char) (l : List Char) : List Char :=
  ((l.dropWhile (fun c => c == front)).reverse.dropWhile (fun c => c == back)).reverse

/-- Keep the first occurrence of each string and drop later duplicates:
JavaScript `Array.from(new Set(...))` (insertion-ordered). -/
def dedupFirst : List String → List String → List String
  | _, [] => []
  | seen, x :: xs =>
    if x ∈ seen then dedupFirst seen xs
    else x :: dedupFirst (x :: seen) xs

/-- cleanTopicList of lib/rag.ts: re-split on commas, trim, strip stray
bracket and quote characters, drop empties, deduplicate, cap at 12. -/
def cleanTopicList (topics : Option (List String)) : List String :=
  match topics with
  | none => []
  | some ts =>
    if ts.isEmpty then []
    else
      let flattened :=
        (((ts.map (fun t => (splitOnChar ',' t.data).map (fun l => (⟨l⟩ : String)))).flatten).map
          strTrim).filter (fun s => !s.data.isEmpty)
      let quote := Char.ofNat 39
      let cleaned :=
        (flattened.map (fun t =>
          strTrim ⟨stripEdges quote quote (stripEdges '[' ']' t.data)⟩)).filter
          (fun s => !s.data.isEmpty)
      (dedupFirst [] cleaned).take 12

/-- clip of lib/rag.ts, modelled for the positive cap it is called with:
text at or under the cap is returned unchanged, longer text is cut to the
first `maxChars - 1` characters with the ellipsis marker appended. -/
def clip (text : String) (maxChars : Nat) : String :=
  if text.data.length ≤ maxChars then text
  else (⟨text.data.take (maxChars - 1)⟩ : String) ++ "…"

/-- JSON.stringify of a list of topic strings (the topics the pipeline
produces hold no quote or escape characters). -/
def jsonStringArray (xs : List String) : String :=
  "[" ++ joinSep "," (xs.map (fun s => "\"" ++ s ++ "\"")) ++ "]"

/-- One entry of the candidates block (the body of the map inside
buildCandidatesBlock); `i` is the 0-based index.  The numeric score is
rendered by `toString`, abstracting JavaScript float formatting. -/
def candidateEntry (i : Nat) (c : RetrievedMatch) : String :=
  joinSep "\n" [
    "[#" ++ toString (i + 1) ++ "] talk_id=" ++ c.talk_id,
    "TITLE: " ++ c.title,
    "SPEAKER: " ++ c.speaker_1.getD "",
    "TOPICS: " ++ jsonStringArray (cleanTopicList c.topics),
    "EVIDENCE:\n\"" ++ clip c.chunk 900 ++ "\"",
    "SCORE: " ++ toString c.score]

/-- buildCandidatesBlock of lib/rag.ts. -/
def buildCandidatesBlock (cands : List RetrievedMatch) : String :=
  joinSep "\n\n" (cands.mapIdx candidateEntry)

/-- The fixed refusal sentence of lib/rag.ts. -/
def FALLBACK : String := "I don’t know based on the provided TED data."

/-- The exported request-level mode tag (type Mode of lib/rag.ts). -/
inductive Mode where
  | qa
  | title_list
  | title_speaker

/-- The internal mode after resolution. -/
inductive InternalMode where
  | general
  | title_list
  | title_speaker

deriving instance DecidableEq for Mode
deriving instance DecidableEq for InternalMode

/-- detectMode of lib/rag.ts: strict lexical auto-detection on the
lower-cased question. -/
def detectMode (question : String) : InternalMode :=
  let q := strLower question
  if (strContains q "exactly 3" || strContains q "exactly three") &&
     (strContains q "titles" || strContains q "title") then
    InternalMode.title_list
  else if strContains q "title and speaker" ||
          strContains q "provide the title and speaker" ||
          strContains q "provide title and speaker" ||
          strContains q "title & speaker" then
    InternalMode.title_speaker
  else
    InternalMode.general

/-- The mode decision of answerQuestion: an explicit request wins (qa maps
to general); with no explicit request, strict auto-detection. -/
def resolveMode (question : String) (requestedMode : Option Mode) : InternalMode :=
  match requestedMode with
  | some Mode.title_list => InternalMode.title_list
  | some Mode.title_speaker => InternalMode.title_speaker
  | some Mode.qa => InternalMode.general
  | none => detectMode question

/-- validateTitleSpeakerResponse of lib/rag.ts: the answer must contain some
candidate's non-empty title and some candidate's non-empty speaker as
substrings. -/
def validateTitleSpeakerResponse (resp : String) (cands : List RetrievedMatch) : Bool :=
  let titles := (cands.map (fun c => c.title)).filter (fun t => !t.data.isEmpty)
  let speakers := cands.filterMap (fun c => match c.speaker_1 with
    | some s => if s = "" then none else some s
    | none => none)
  let hasTitle := titles.any (fun t => strContains resp t)
  let hasSpeaker := speakers.any (fun s => strContains resp s)
  hasTitle && hasSpeaker

/-- The characters the title-list validator strips from the front of a line:
dashes, asterisks, periods, closing parentheses, digits and whitespace. -/
def isBulletChar (c : Char) : Bool :=
  c == '-' || c == '*' || c == '.' || c == ')' || c.isDigit || isWs c

/-- The non-empty trimmed lines of an answer, as the title-list validator
cuts it. -/
def answerLines (resp : String) : List (List Char) :=
  ((splitOnChar '\n' resp.data).map trimChars).filter (fun l => !l.isEmpty)

/-- validateTitleListResponse of lib/rag.ts. -/
def validateTitleListResponse (resp : String) (cands : List RetrievedMatch) (n : Nat) : Bool :=
  let lines := answerLines resp
  if lines.length ≠ n then false
  else lines.all (fun line =>
    let cleaned := trimChars (line.dropWhile isBulletChar)
    cands.any (fun c => c.title.data == cleaned))

/-- The hard-guardrail block at the end of answerQuestion: substitute the
refusal sentence when the mode-specific validator rejects (the two `if`
statements of the source run in sequence). -/
def guardResponse (mode : InternalMode) (cands : List RetrievedMatch) (resp : String) : String :=
  let r1 :=
    if mode = InternalMode.title_speaker ∧ validateTitleSpeakerResponse resp cands = false
    then FALLBACK else resp
  if mode = InternalMode.title_list ∧ validateTitleListResponse r1 cands 3 = false
  then FALLBACK else r1

/-- buildSystemPrompt of lib/rag.ts. -/
def buildSystemPrompt : String :=
  joinSep "\n" [
    "You are a TED Talk assistant that answers questions strictly and",
    "only based on the TED dataset context provided to you (metadata",
    "and transcript passages). You must not use any external",
    "knowledge, the open internet, or information that is not explicitly",
    "contained in the retrieved context. If the answer cannot be",
    "determined from the provided context, respond: “" ++ FALLBACK ++ "”",
    "Always explain your answer using the given context, quoting or paraphrasing",
    "the relevant transcript or metadata when helpful.",
    "",
    "Additional style rules:",
    "- If the user requests multiple talk titles (e.g., exactly 3), output only titles in a list.",
    "- Do not invent talk titles, speakers, or facts not present in the provided context.",
    "- When the user request specifies an exact output format (e.g., Title/Speaker only), follow that format exactly, even if it includes no explanation."]

/-- The mode-specific user prompt built inside answerQuestion. -/
def buildUserPrompt (mode : InternalMode) (question : String)
    (cands : List RetrievedMatch) : String :=
  let candidatesBlock := buildCandidatesBlock cands
  match mode with
  | InternalMode.title_list =>
    joinSep "\n" [
      "Choose exactly THREE talk titles from the CANDIDATES that best match the QUESTION.",
      "Output only the three titles, one per line, with no extra text.",
      "",
      "Rules:",
      "- You MUST copy titles exactly as written in the CANDIDATES.",
      "- If you cannot find exactly 3 valid titles, respond exactly:\n" ++ FALLBACK,
      "",
      "QUESTION:\n" ++ question,
      "",
      "CANDIDATES:\n" ++ candidatesBlock]
  | InternalMode.title_speaker =>
    joinSep "\n" [
      "Choose exactly ONE talk from the CANDIDATES that best matches the QUESTION.",
      "Output format (exactly):",
      "Title: <title>",
      "Speaker: <speaker>",
      "",
      "How to decide a match:",
      "- A candidate is a valid match if its TITLE, TOPICS, or EVIDENCE explicitly mentions the key theme or close synonyms.",
      "",
      "Rules:",
      "- You MUST copy the Title and Speaker exactly as written in the CANDIDATES.",
      "- If NONE of the candidates contain the theme (or close synonyms), respond exactly:\n" ++ FALLBACK,
      "",
      "QUESTION:\n" ++ question,
      "",
      "CANDIDATES:\n" ++ candidatesBlock]
  | InternalMode.general =>
    let contextBlock := joinSep "\n\n---\n\n" (cands.map (fun c =>
      "TITLE: " ++ c.title ++ "\nSPEAKER: " ++ c.speaker_1.getD "" ++
        "\nEVIDENCE:\n" ++ c.chunk))
    joinSep "\n" [
      "Answer the question using only the CONTEXT below.",
      "If the answer is not explicitly supported by the context, say: " ++ FALLBACK,
      "",
      "QUESTION:\n" ++ question,
      "",
      "CONTEXT:\n" ++ (if contextBlock = "" then "(none)" else contextBlock)]

/-- The projection of a match into the public context
(the body of `matches.map` in answerQuestion). -/
def toPublicContext (m : RetrievedMatch) : PublicContextChunk :=
  { talk_id := m.talk_id, title := m.title, chunk := m.chunk, score := m.score }

/-- The Augmented_prompt debug payload of the response. -/
structure AugmentedPrompt where
  System : String
  User : String

/-- The full result object of answerQuestion. -/
structure RagResponse where
  response : String
  context : List PublicContextChunk
  Augmented_prompt : AugmentedPrompt

/-- answerQuestion of lib/rag.ts as a pure pipeline: the external index call
is modelled by the raw matches it returns, the chat-model call by the text
it returns (trimmed here exactly as callModel trims it). -/
def answerQuestion (question : String) (requestedMode : Option Mode)
    (raws : List RawMatch) (modelResponse : String) : RagResponse :=
  let found := retrieve raws
  let cands := buildCandidates found 8
  let publicContext := found.map toPublicContext
  let mode := resolveMode question requestedMode
  let userPrompt := buildUserPrompt mode question cands
  let response := guardResponse mode cands (strTrim modelResponse)
  { response := response, context := publicContext,
    Augmented_prompt := { System := buildSystemPrompt, User := userPrompt } }

/-- Substring as the spec means it: `needle` occurs contiguously in `hay`. -/
def IsSubstr (needle hay : String) : Prop :=
  ∃ pre post : String, hay = pre ++ needle ++ post

/-- The title-list acceptance condition as the spec words it: exactly `n`
non-empty trimmed lines, and every line, once its leading bullet and
numbering characters are stripped, is the title of some candidate. -/
def TitleListAccepts (resp : String) (cands : List RetrievedMatch) (n : Nat) : Prop :=
  (answerLines resp).length = n ∧
    ∀ l ∈ answerLines resp, ∃ c ∈ cands, trimChars (l.dropWhile isBulletChar) = c.title.data

/-- The title+speaker acceptance condition as the spec words it: the answer
contains some candidate's title and some (possibly different) candidate's
non-empty speaker as exact substrings. -/
def TitleSpeakerAccepts (resp : String) (cands : List RetrievedMatch) : Prop :=
  (∃ c ∈ cands, IsSubstr c.title resp) ∧
    (∃ c ∈ cands, ∃ s, c.speaker_1 = some s ∧ s ≠ "" ∧ IsSubstr s resp)

/-- Helper for `collapseWs`: `prevWs` records whether the previous character
belonged to a whitespace run already emitted as one space. -/
def collapseWsAux (prevWs : Bool) : List Char → List Char
  | [] => []
  | c :: cs =>
    if isWs c then
      if prevWs then collapseWsAux true cs else ' ' :: collapseWsAux true cs
    else c :: collapseWsAux false cs

/-- Modelled from the spec: collapse every whitespace run to a single space
(the pre-clipping normalization the spec describes for the candidate block;
the clip of lib/rag.ts performs no such collapsing). -/
def collapseWs (s : String) : String :=
  ⟨collapseWsAux false s.data⟩

/-- The aggregation step as the spec words it: one candidate per group,
then sort all of them descending and truncate — with no early break. -/
def aggregateSpec (ms : List RetrievedMatch) (maxTalks : Nat) : List RetrievedMatch :=
  (sortByScoreDesc ((groupByTalkId ms).filterMap (fun g => mkCandidate g.2))).take maxTalks

/-- Candidate fixture of the spec's end-to-end scenario: Talk A by Alice,
score 0.9. -/
def candA : RetrievedMatch :=
  { talk_id := "1", title := "Talk A", speaker_1 := some "Alice", topics := none,
    chunk := "alpha", score := ⟨9, 10, by decide, by decide⟩ }

/-- Candidate fixture of the spec's end-to-end scenario: Talk B by Bob,
score 0.7. -/
def candB : RetrievedMatch :=
  { talk_id := "2", title := "Talk B", speaker_1 := some "Bob", topics := none,
    chunk := "beta", score := ⟨7, 10, by decide, by decide⟩ }

/-! Basic lemmas. -/

/-- The configured minimum score is the 0.12 of the source. -/
lemma min_score_eq : RAG_CONFIG.min_score = 12/100 := by
  show (⟨3, 25, by decide, by decide⟩ : ℚ) = 12/100
  rw [Rat.mk'_eq_divInt, Rat.divInt_eq_div]
  norm_num

lemma strData_append (a b : String) : (a ++ b).data = a.data ++ b.data := rfl

lemma charsLead_iff (needle hay : List Char) :
    charsLead needle hay = true ↔ ∃ t, hay = needle ++ t := by
  induction needle generalizing hay with
  | nil => simp [charsLead]
  | cons a as ih =>
    cases hay with
    | nil => simp [charsLead]
    | cons b bs =>
      simp only [charsLead, Bool.and_eq_true, beq_iff_eq, ih]
      constructor
      · rintro ⟨rfl, t, rfl⟩
        exact ⟨t, rfl⟩
      · rintro ⟨t, h⟩
        rw [List.cons_append] at h
        cases h
        exact ⟨rfl, t, rfl⟩

lemma charsContains_iff (needle hay : List Char) :
    charsContains needle hay = true ↔ ∃ p t, hay = p ++ needle ++ t := by
  induction hay with
  | nil =>
    simp only [charsContains, charsLead_iff]
    constructor
    · rintro ⟨t, h⟩
      exact ⟨[], t, by simpa using h⟩
    · rintro ⟨p, t, h⟩
      have h3 : p = [] ∧ needle = [] ∧ t = [] := by simpa using h.symm
      rcases h3 with ⟨rfl, rfl, rfl⟩
      exact ⟨[], by simp⟩
  | cons c cs ih =>
    simp only [charsContains, Bool.or_eq_true, charsLead_iff, ih]
    constructor
    · rintro (⟨t, h⟩ | ⟨p, t, h⟩)
      · exact ⟨[], t, by simpa using h⟩
      · exact ⟨c :: p, t, by simp [h]⟩
    · rintro ⟨p, t, h⟩
      cases p with
      | nil => exact Or.inl ⟨t, by simpa using h⟩
      | cons x p =>
        rw [List.cons_append, List.cons_append] at h
        cases h
        exact Or.inr ⟨p, t, rfl⟩

lemma strContains_iff (hay needle : String) :
    strContains hay needle = true ↔ IsSubstr needle hay := by
  unfold strContains IsSubstr
  rw [charsContains_iff]
  constructor
  · rintro ⟨p, t, h⟩
    refine ⟨⟨p⟩, ⟨t⟩, String.ext ?_⟩
    simpa [strData_append] using h
  · rintro ⟨pre, post, h⟩
    exact ⟨pre.data, post.data, by rw [h]; simp [strData_append]⟩

/-! Lemmas about the stable descending sort. -/

lemma insertByScore_perm (m : RetrievedMatch) (l : List RetrievedMatch) :
    (insertByScore m l).Perm (m :: l) := by
  induction l with
  | nil => simp [insertByScore]
  | cons x xs ih =>
    by_cases hc : x.score < m.score
    · simp [insertByScore, hc]
    · simp only [insertByScore, if_neg hc]
      exact (List.Perm.cons x ih).trans (List.Perm.swap m x xs)

lemma mem_insertByScore {y m : RetrievedMatch} {l : List RetrievedMatch} :
    y ∈ insertByScore m l ↔ y = m ∨ y ∈ l := by
  rw [(insertByScore_perm m l).mem_iff, List.mem_cons]

lemma insertByScore_sorted (m : RetrievedMatch) {l : List RetrievedMatch}
    (h : l.Pairwise (fun a b => b.score ≤ a.score)) :
    (insertByScore m l).Pairwise (fun a b => b.score ≤ a.score) := by
  induction l with
  | nil => simp [insertByScore]
  | cons x xs ih =>
    rcases List.pairwise_cons.1 h with ⟨hx, hxs⟩
    by_cases hc : x.score < m.score
    · simp only [insertByScore, if_pos hc]
      refine List.pairwise_cons.2 ⟨?_, h⟩
      intro y hy
      rcases List.mem_cons.1 hy with rfl | hy
      · exact le_of_lt hc
      · exact le_trans (hx y hy) (le_of_lt hc)
    · simp only [insertByScore, if_neg hc]
      refine List.pairwise_cons.2 ⟨?_, ih hxs⟩
      intro y hy
      rcases mem_insertByScore.1 hy with rfl | hy
      · exact le_of_not_lt hc
      · exact hx y hy

lemma sortAux_perm (l acc : List RetrievedMatch) :
    (l.foldl (fun a m => insertByScore m a) acc).Perm (acc ++ l) := by
  induction l generalizing acc with
  | nil => simp
  | cons m ms ih =>
    simp only [List.foldl_cons]
    refine (ih _).trans ?_
    have h1 : (insertByScore m acc ++ ms).Perm ((m :: acc) ++ ms) :=
      (insertByScore_perm m acc).append_right ms
    exact h1.trans List.perm_middle.symm

lemma sortByScoreDesc_perm (l : List RetrievedMatch) : (sortByScoreDesc l).Perm l := by
  simpa using sortAux_perm l []

lemma sortAux_sorted (l : List RetrievedMatch) :
    ∀ acc, acc.Pairwise (fun a b => b.score ≤ a.score) →
      (l.foldl (fun a m => insertByScore m a) acc).Pairwise (fun a b => b.score ≤ a.score) := by
  induction l with
  | nil => intro acc h; simpa using h
  | cons m ms ih =>
    intro acc h
    simpa using ih _ (insertByScore_sorted m h)

lemma sortByScoreDesc_sorted (l : List RetrievedMatch) :
    (sortByScoreDesc l).Pairwise (fun a b => b.score ≤ a.score) :=
  sortAux_sorted l [] (by simp)

lemma filter_insertByScore (s : ℚ) (m : RetrievedMatch) {l : List RetrievedMatch}
    (h : l.Pairwise (fun a b => b.score ≤ a.score)) :
    (insertByScore m l).filter (fun x => decide (x.score = s)) =
      if m.score = s then l.filter (fun x => decide (x.score = s)) ++ [m]
      else l.filter (fun x => decide (x.score = s)) := by
  induction l with
  | nil => by_cases hm : m.score = s <;> simp [insertByScore, hm]
  | cons x xs ih =>
    rcases List.pairwise_cons.1 h with ⟨hx, hxs⟩
    by_cases hc : x.score < m.score
    · simp only [insertByScore, if_pos hc]
      by_cases hm : m.score = s
      · have hempty : (x :: xs).filter (fun y => decide (y.score = s)) = [] := by
          refine List.filter_eq_nil_iff.2 ?_
          intro y hy
          simp only [decide_eq_true_eq]
          rcases List.mem_cons.1 hy with rfl | hy
          · exact ne_of_lt (hm ▸ hc)
          · exact ne_of_lt (lt_of_le_of_lt (hx y hy) (hm ▸ hc))
        simp [List.filter_cons, hm, hempty]
      · simp [List.filter_cons, hm]
    · simp only [insertByScore, if_neg hc]
      rw [List.filter_cons, List.filter_cons, ih hxs]
      by_cases hxe : x.score = s <;> by_cases hm : m.score = s <;>
        simp [hxe, hm]

lemma sortAux_filter (s : ℚ) (l : List RetrievedMatch) :
    ∀ acc, acc.Pairwise (fun a b => b.score ≤ a.score) →
      (l.foldl (fun a m => insertByScore m a) acc).filter (fun x => decide (x.score = s)) =
        acc.filter (fun x => decide (x.score = s)) ++ l.filter (fun x => decide (x.score = s)) := by
  induction l with
  | nil => intro acc _; simp
  | cons m ms ih =>
    intro acc hacc
    simp only [List.foldl_cons]
    rw [ih _ (insertByScore_sorted m hacc), filter_insertByScore s m hacc, List.filter_cons]
    by_cases hm : m.score = s <;> simp [hm]

/-- Stability of the sort: the elements of any one score keep their input
order (the sublist at each score is unchanged). -/
lemma sortByScoreDesc_filter (s : ℚ) (l : List RetrievedMatch) :
    (sortByScoreDesc l).filter (fun x => decide (x.score = s)) =
      l.filter (fun x => decide (x.score = s)) := by
  simpa using sortAux_filter s l [] (by simp)

/-! Lemmas about grouping by talk_id. -/

/-- Well-formedness of a group list: keys are distinct and every member of a
group carries the group's key. -/
def GroupsWF (gs : List (String × List RetrievedMatch)) : Prop :=
  (gs.map Prod.fst).Nodup ∧ ∀ g ∈ gs, ∀ x ∈ g.2, x.talk_id = g.1

lemma pushToGroup_map_fst (m : RetrievedMatch) (gs : List (String × List RetrievedMatch)) :
    (pushToGroup m gs).map Prod.fst =
      if m.talk_id ∈ gs.map Prod.fst then gs.map Prod.fst
      else gs.map Prod.fst ++ [m.talk_id] := by
  induction gs with
  | nil => simp [pushToGroup]
  | cons g gs ih =>
    obtain ⟨k, arr⟩ := g
    by_cases hk : k = m.talk_id
    · simp [pushToGroup, hk]
    · simp only [pushToGroup, if_neg hk, List.map_cons, ih]
      have hne : ¬ m.talk_id = k := fun h => hk h.symm
      by_cases hmem : m.talk_id ∈ gs.map Prod.fst <;>
        simp [hmem, hne]

lemma mem_pushToGroup {g : String × List RetrievedMatch} {m : RetrievedMatch}
    {gs : List (String × List RetrievedMatch)} (h : g ∈ pushToGroup m gs) :
    g ∈ gs ∨ (∃ arr, (g.1, arr) ∈ gs ∧ g.2 = arr ++ [m] ∧ g.1 = m.talk_id) ∨
      g = (m.talk_id, [m]) := by
  induction gs with
  | nil =>
    simp only [pushToGroup, List.mem_singleton] at h
    exact Or.inr (Or.inr h)
  | cons p gs ih =>
    obtain ⟨k, arr⟩ := p
    by_cases hk : k = m.talk_id
    · simp only [pushToGroup, if_pos hk, List.mem_cons] at h
      rcases h with rfl | h
      · exact Or.inr (Or.inl ⟨arr, by simp [hk]⟩)
      · exact Or.inl (List.mem_cons_of_mem _ h)
    · simp only [pushToGroup, if_neg hk, List.mem_cons] at h
      rcases h with rfl | h
      · exact Or.inl (List.mem_cons_self _ _)
      · rcases ih h with h1 | h1 | h1
        · exact Or.inl (List.mem_cons_of_mem _ h1)
        · rcases h1 with ⟨a, ha, he, hk2⟩
          exact Or.inr (Or.inl ⟨a, List.mem_cons_of_mem _ ha, he, hk2⟩)
        · exact Or.inr (Or.inr h1)

lemma pushToGroup_wf {gs : List (String × List RetrievedMatch)} (m : RetrievedMatch)
    (h : GroupsWF gs) : GroupsWF (pushToGroup m gs) := by
  obtain ⟨hkeys, hmem⟩ := h
  constructor
  · rw [pushToGroup_map_fst]
    by_cases hin : m.talk_id ∈ gs.map Prod.fst
    · simpa [hin] using hkeys
    · simp only [if_neg hin]
      exact List.Nodup.append hkeys (List.nodup_singleton _)
        (by simpa using fun h => hin h)
  · intro g hg x hx
    rcases mem_pushToGroup hg with h1 | h1 | h1
    · exact hmem g h1 x hx
    · rcases h1 with ⟨arr, ha, he, hk⟩
      rw [he] at hx
      rcases List.mem_append.1 hx with hx | hx
      · exact hmem (g.1, arr) ha x hx
      · rw [List.mem_singleton.1 hx, hk]
    · subst h1
      have hxm : x = m := by simpa using hx
      rw [hxm]

lemma groupByTalkId_wf (ms : List RetrievedMatch) : GroupsWF (groupByTalkId ms) := by
  have h : ∀ acc, GroupsWF acc →
      GroupsWF (ms.foldl (fun a m => pushToGroup m a) acc) := by
    induction ms with
    | nil => intro acc h; simpa using h
    | cons m ms ih =>
      intro acc h
      simpa using ih _ (pushToGroup_wf m h)
  exact h [] ⟨by simp, by simp⟩

lemma pushToGroup_length (m : RetrievedMatch) (gs : List (String × List RetrievedMatch)) :
    (pushToGroup m gs).length ≤ gs.length + 1 := by
  induction gs with
  | nil => simp [pushToGroup]
  | cons g gs ih =>
    obtain ⟨k, arr⟩ := g
    by_cases hk : k = m.talk_id
    · simp [pushToGroup, hk]
    · simp only [pushToGroup, if_neg hk, List.length_cons]
      omega

lemma groupByTalkId_length (ms : List RetrievedMatch) :
    (groupByTalkId ms).length ≤ ms.length := by
  have h : ∀ acc, (ms.foldl (fun a m => pushToGroup m a) acc).length ≤
      acc.length + ms.length := by
    induction ms with
    | nil => intro acc; simp
    | cons m ms ih =>
      intro acc
      simp only [List.foldl_cons, List.length_cons]
      have h1 := ih (pushToGroup m acc)
      have h2 := pushToGroup_length m acc
      omega
  simpa using h []

/-! Lemmas about the candidate-building loop. -/

lemma mkCandidate_talkId {arr : List RetrievedMatch} {c : RetrievedMatch} {k : String}
    (hmk : mkCandidate arr = some c) (hall : ∀ x ∈ arr, x.talk_id = k) :
    c.talk_id = k := by
  unfold mkCandidate at hmk
  cases hsort : sortByScoreDesc arr with
  | nil => rw [hsort] at hmk; cases hmk
  | cons best rest =>
    rw [hsort] at hmk
    cases hmk
    have hb : best ∈ arr :=
      (sortByScoreDesc_perm arr).subset (hsort ▸ List.mem_cons_self best rest)
    exact hall best hb

lemma buildLoop_mem {y : RetrievedMatch} {maxTalks : Nat} :
    ∀ {gs : List (String × List RetrievedMatch)} {acc : List RetrievedMatch},
      y ∈ buildLoop maxTalks gs acc →
      y ∈ acc ∨ ∃ g ∈ gs, mkCandidate g.2 = some y := by
  intro gs
  induction gs with
  | nil =>
    intro acc h
    simp only [buildLoop] at h
    exact Or.inl h
  | cons g gs ih =>
    intro acc h
    obtain ⟨k, arr⟩ := g
    simp only [buildLoop] at h
    cases hmk : mkCandidate arr with
    | none =>
      rw [hmk] at h
      dsimp only at h
      rcases ih h with h1 | ⟨g2, hg2, hmk2⟩
      · exact Or.inl h1
      · exact Or.inr ⟨g2, List.mem_cons_of_mem _ hg2, hmk2⟩
    | some c =>
      rw [hmk] at h
      dsimp only at h
      by_cases hlen : maxTalks ≤ acc.length + 1
      · rw [if_pos hlen] at h
        rcases List.mem_append.1 h with h1 | h1
        · exact Or.inl h1
        · rw [List.mem_singleton.1 h1]
          exact Or.inr ⟨(k, arr), List.mem_cons_self _ _, hmk⟩
      · rw [if_neg hlen] at h
        rcases ih h with h1 | ⟨g2, hg2, hmk2⟩
        · rcases List.mem_append.1 h1 with h2 | h2
          · exact Or.inl h2
          · rw [List.mem_singleton.1 h2]
            exact Or.inr ⟨(k, arr), List.mem_cons_self _ _, hmk⟩
        · exact Or.inr ⟨g2, List.mem_cons_of_mem _ hg2, hmk2⟩

lemma buildLoop_length (maxTalks : Nat) :
    ∀ (gs : List (String × List RetrievedMatch)) (acc : List RetrievedMatch),
      (buildLoop maxTalks gs acc).length ≤ acc.length + gs.length := by
  intro gs
  induction gs with
  | nil => intro acc; simp [buildLoop]
  | cons g gs ih =>
    intro acc
    obtain ⟨k, arr⟩ := g
    simp only [buildLoop, List.length_cons]
    cases mkCandidate arr with
    | none =>
      dsimp only
      have := ih acc
      omega
    | some c =>
      dsimp only
      by_cases hlen : maxTalks ≤ acc.length + 1
      · simp only [if_pos hlen, List.length_append, List.length_singleton]
        omega
      · simp only [if_neg hlen]
        have := ih (acc ++ [c])
        simp only [List.length_append, List.length_singleton] at this
        omega

lemma buildLoop_talkIds (maxTalks : Nat) :
    ∀ (gs : List (String × List RetrievedMatch)) (acc : List RetrievedMatch),
      (∀ g ∈ gs, ∀ x ∈ g.2, x.talk_id = g.1) →
      ((acc.map RetrievedMatch.talk_id) ++ gs.map Prod.fst).Nodup →
      ((buildLoop maxTalks gs acc).map RetrievedMatch.talk_id).Nodup := by
  intro gs
  induction gs with
  | nil =>
    intro acc _ hnd
    simp only [buildLoop]
    simpa using hnd
  | cons g gs ih =>
    intro acc hwf hnd
    obtain ⟨k, arr⟩ := g
    simp only [buildLoop]
    have hsub : (acc.map RetrievedMatch.talk_id ++ gs.map Prod.fst).Sublist
        (acc.map RetrievedMatch.talk_id ++ ((k, arr) :: gs).map Prod.fst) := by
      simp only [List.map_cons]
      exact ((gs.map Prod.fst).sublist_cons_self k).append_left _
    cases hmk : mkCandidate arr with
    | none =>
      dsimp only
      exact ih acc (fun g2 hg2 => hwf g2 (List.mem_cons_of_mem _ hg2)) (hnd.sublist hsub)
    | some c =>
      dsimp only
      have hck : c.talk_id = k := mkCandidate_talkId hmk (hwf (k, arr) (List.mem_cons_self _ _))
      have hnd2 : ((acc ++ [c]).map RetrievedMatch.talk_id ++ gs.map Prod.fst).Nodup := by
        simp only [List.map_append, List.map_singleton, hck, List.append_assoc,
          List.singleton_append]
        simpa using hnd
      by_cases hlen : maxTalks ≤ acc.length + 1
      · rw [if_pos hlen]
        have hsub2 : ((acc ++ [c]).map RetrievedMatch.talk_id).Sublist
            ((acc ++ [c]).map RetrievedMatch.talk_id ++ gs.map Prod.fst) :=
          List.sublist_append_left _ _
        exact hnd2.sublist hsub2
      · rw [if_neg hlen]
        exact ih (acc ++ [c]) (fun g2 hg2 => hwf g2 (List.mem_cons_of_mem _ hg2)) hnd2

/-! Lemmas about normalization in retrieve. -/

lemma normalizeRaw_some_props {r : RawMatch} {m : RetrievedMatch}
    (h : normalizeRaw r = some m) :
    RAG_CONFIG.min_score ≤ m.score ∧ m.talk_id ≠ "" ∧ m.title ≠ "" ∧ m.chunk ≠ "" := by
  simp only [normalizeRaw] at h
  by_cases h1 : r.score.getD 0 < RAG_CONFIG.min_score
  · simp [h1] at h
  · rw [if_neg h1] at h
    by_cases h2 : rawTalkId r = "" ∨ rawTitle r = "" ∨ rawChunk r = ""
    · simp [h2] at h
    · rw [if_neg h2] at h
      push_neg at h2
      obtain ⟨h2a, h2b, h2c⟩ := h2
      cases h
      exact ⟨le_of_not_lt h1, h2a, h2b, h2c⟩

lemma normalizeRaw_none_iff (r : RawMatch) :
    normalizeRaw r = none ↔
      (r.score.getD 0 < RAG_CONFIG.min_score ∨
        rawTalkId r = "" ∨ rawTitle r = "" ∨ rawChunk r = "") := by
  simp only [normalizeRaw]
  by_cases h1 : r.score.getD 0 < RAG_CONFIG.min_score
  · simp [h1]
  · rw [if_neg h1]
    by_cases h2 : rawTalkId r = "" ∨ rawTitle r = "" ∨ rawChunk r = "" <;>
      simp [h1, h2]

/-! Concrete fixtures used by witnesses and counterexamples. -/

/-- A well-formed concrete raw index item. -/
def rawGood : RawMatch :=
  { score := some 1, talk_id := some "t1", id := none, title := some "Talk T",
    speaker_1 := some "Speaker S", topics := TopicsField.absent,
    chunk := some "evidence text", text := none }

/-- The match `retrieve` produces from `rawGood`. -/
def matchGood : RetrievedMatch :=
  { talk_id := "t1", title := "Talk T", speaker_1 := some "Speaker S",
    topics := none, chunk := "evidence text", score := 1 }

/-- A single-match talk with the lower score (listed first). -/
def mLow : RetrievedMatch :=
  { talk_id := "L", title := "Low", speaker_1 := none, topics := none,
    chunk := "low evidence", score := 1 }

/-- A single-match talk with the higher score (listed second). -/
def mHigh : RetrievedMatch :=
  { talk_id := "H", title := "High", speaker_1 := none, topics := none,
    chunk := "high evidence", score := 2 }

/-- C4: every match retrieve returns has score at least the configured
minimum and non-empty identifier, title and evidence text; the output is
sorted by non-increasing score; it is a permutation of the per-item
normalization of the input, whose equal-score items keep their input order
(stable sort); and an item normalizes to `none` (is dropped, the request
does not fail) exactly when its score is below the minimum or its
identifier, title or evidence is missing after normalization. -/
theorem retrieve_spec (raws : List RawMatch) :
    RAG_CONFIG.min_score = 12/100 ∧
    (∀ m ∈ retrieve raws,
        RAG_CONFIG.min_score ≤ m.score ∧ m.talk_id ≠ "" ∧ m.title ≠ "" ∧ m.chunk ≠ "") ∧
    (retrieve raws).Pairwise (fun a b => b.score ≤ a.score) ∧
    (retrieve raws).Perm (raws.filterMap normalizeRaw) ∧
    (∀ s : ℚ, (retrieve raws).filter (fun x => decide (x.score = s)) =
        (raws.filterMap normalizeRaw).filter (fun x => decide (x.score = s))) ∧
    (∀ r : RawMatch, normalizeRaw r = none ↔
        (r.score.getD 0 < RAG_CONFIG.min_score ∨
          rawTalkId r = "" ∨ rawTitle r = "" ∨ rawChunk r = "")) := by
  refine ⟨min_score_eq, ?_, sortByScoreDesc_sorted _, sortByScoreDesc_perm _,
    fun s => sortByScoreDesc_filter s _, normalizeRaw_none_iff⟩
  intro m hm
  have hm2 : m ∈ raws.filterMap normalizeRaw := (sortByScoreDesc_perm _).subset hm
  rcases List.mem_filterMap.1 hm2 with ⟨r, _, hr⟩
  exact normalizeRaw_some_props hr

/-- C4 witness: `retrieve_spec` applied to a concrete raw list, its
membership hypothesis discharged at the concrete match it yields. -/
theorem retrieve_spec_witness :
    RAG_CONFIG.min_score ≤ matchGood.score ∧ matchGood.talk_id ≠ "" ∧
      matchGood.title ≠ "" ∧ matchGood.chunk ≠ "" :=
  (retrieve_spec [rawGood]).2.1 matchGood (by decide)

/-- C5 counterexample: with cap 1 and the lower-scoring talk first, the
loop of buildCandidates breaks before the higher-scoring group is ever
built, so the function keeps the low-scoring talk — while building one
candidate per group and then sorting and truncating, as the claim
describes, keeps the high-scoring one. -/
theorem buildCandidates_earlyBreak_cex :
    buildCandidates [mLow, mHigh] 1 = [mLow] ∧
    aggregateSpec [mLow, mHigh] 1 = [mHigh] ∧
    buildCandidates [mLow, mHigh] 1 ≠ aggregateSpec [mLow, mHigh] 1 := by
  refine ⟨?_, ?_, ?_⟩ <;> decide

/-- C5 (amended): buildCandidates returns at most one candidate per
document identifier, at most the cap, sorted by non-increasing score, and
every returned candidate is built by `mkCandidate` from the group of its
own talk_id (the group's best match with the top-two evidence merged) —
but the loop stops building new candidates as soon as the cap is reached,
so group building is not performed for every group before sorting. -/
theorem buildCandidates_spec (ms : List RetrievedMatch) (cap : Nat) :
    ((buildCandidates ms cap).map RetrievedMatch.talk_id).Nodup ∧
    (buildCandidates ms cap).length ≤ cap ∧
    (buildCandidates ms cap).Pairwise (fun a b => b.score ≤ a.score) ∧
    ∀ c ∈ buildCandidates ms cap, ∃ arr,
      (c.talk_id, arr) ∈ groupByTalkId ms ∧ mkCandidate arr = some c := by
  obtain ⟨hkeys, hwf⟩ := groupByTalkId_wf ms
  have h1 : ((buildLoop cap (groupByTalkId ms) []).map RetrievedMatch.talk_id).Nodup :=
    buildLoop_talkIds cap (groupByTalkId ms) [] hwf (by simpa using hkeys)
  have hperm := sortByScoreDesc_perm (buildLoop cap (groupByTalkId ms) [])
  refine ⟨?_, ?_, ?_, ?_⟩
  · show ((List.take cap _).map RetrievedMatch.talk_id).Nodup
    rw [List.map_take]
    exact ((hperm.map RetrievedMatch.talk_id).nodup_iff.2 h1).sublist
      (List.take_sublist _ _)
  · show (List.take cap _).length ≤ cap
    exact List.length_take_le _ _
  · exact (sortByScoreDesc_sorted _).sublist (List.take_sublist _ _)
  · intro c hc
    have hc1 : c ∈ sortByScoreDesc (buildLoop cap (groupByTalkId ms) []) :=
      List.take_subset _ _ hc
    have hc2 : c ∈ buildLoop cap (groupByTalkId ms) [] := hperm.subset hc1
    rcases buildLoop_mem hc2 with h | ⟨g, hg, hmk⟩
    · cases h
    · have hck : c.talk_id = g.1 := mkCandidate_talkId hmk (hwf g hg)
      refine ⟨g.2, ?_, hmk⟩
      rw [hck]
      exact Prod.mk.eta ▸ hg

/-- C5 witness: the amended theorem applied at the counterexample input —
the one candidate kept is built from the group of its own talk_id. -/
theorem buildCandidates_spec_witness :
    ∃ arr, (mLow.talk_id, arr) ∈ groupByTalkId [mLow, mHigh] ∧
      mkCandidate arr = some mLow :=
  (buildCandidates_spec [mLow, mHigh] 1).2.2.2 mLow (by decide)

/-! Mode resolution (C3). -/

/-- The exact-count title cue of the spec: the lower-cased question contains
"exactly 3" or "exactly three", and "title" or "titles". -/
def TitleListCue (question : String) : Prop :=
  (strContains (strLower question) "exactly 3" = true ∨
    strContains (strLower question) "exactly three" = true) ∧
  (strContains (strLower question) "titles" = true ∨
    strContains (strLower question) "title" = true)

/-- The fixed combined title-and-speaker phrases of the spec. -/
def TitleSpeakerCue (question : String) : Prop :=
  strContains (strLower question) "title and speaker" = true ∨
  strContains (strLower question) "provide the title and speaker" = true ∨
  strContains (strLower question) "provide title and speaker" = true ∨
  strContains (strLower question) "title & speaker" = true

lemma detectMode_title_list_iff (q : String) :
    detectMode q = InternalMode.title_list ↔ TitleListCue q := by
  unfold detectMode TitleListCue
  by_cases hA : ((strContains (strLower q) "exactly 3" ||
      strContains (strLower q) "exactly three") &&
      (strContains (strLower q) "titles" || strContains (strLower q) "title")) = true
  · simp only [hA, if_true]
    simpa [Bool.and_eq_true, Bool.or_eq_true] using hA
  · have hcue : ¬ ((strContains (strLower q) "exactly 3" = true ∨
        strContains (strLower q) "exactly three" = true) ∧
        (strContains (strLower q) "titles" = true ∨
          strContains (strLower q) "title" = true)) := by
      simpa [Bool.and_eq_true, Bool.or_eq_true] using hA
    simp only [Bool.not_eq_true] at hA
    simp only [hA, Bool.false_eq_true, if_false]
    constructor
    · intro h
      split at h <;> cases h
    · intro h
      exact absurd h hcue

lemma detectMode_title_speaker_iff (q : String) :
    detectMode q = InternalMode.title_speaker ↔ ¬ TitleListCue q ∧ TitleSpeakerCue q := by
  unfold detectMode
  by_cases hA : ((strContains (strLower q) "exactly 3" ||
      strContains (strLower q) "exactly three") &&
      (strContains (strLower q) "titles" || strContains (strLower q) "title")) = true
  · have hcue : TitleListCue q := by
      simpa [TitleListCue, Bool.and_eq_true, Bool.or_eq_true] using hA
    simp [hA, hcue]
  · have hcue : ¬ TitleListCue q := by
      simpa [TitleListCue, Bool.and_eq_true, Bool.or_eq_true] using hA
    simp only [Bool.not_eq_true] at hA
    simp only [hA, Bool.false_eq_true, if_false]
    by_cases hB : (strContains (strLower q) "title and speaker" ||
        strContains (strLower q) "provide the title and speaker" ||
        strContains (strLower q) "provide title and speaker" ||
        strContains (strLower q) "title & speaker") = true
    · have hbcue : TitleSpeakerCue q := by
        simpa [TitleSpeakerCue, Bool.or_eq_true, or_assoc] using hB
      simp [hB, hcue, hbcue]
    · have hbcue : ¬ TitleSpeakerCue q := by
        simpa [TitleSpeakerCue, Bool.or_eq_true, or_assoc] using hB
      simp only [Bool.not_eq_true] at hB
      simp [hB, hbcue]

lemma detectMode_general_iff (q : String) :
    detectMode q = InternalMode.general ↔ ¬ TitleListCue q ∧ ¬ TitleSpeakerCue q := by
  rcases hd : detectMode q with _ | _ | _
  · simp only [true_iff]
    constructor
    · intro hcue
      have := (detectMode_title_list_iff q).2 hcue
      rw [hd] at this
      cases this
    · intro hcue
      have hnl : ¬ TitleListCue q := fun hl => by
        have := (detectMode_title_list_iff q).2 hl
        rw [hd] at this
        cases this
      have := (detectMode_title_speaker_iff q).2 ⟨hnl, hcue⟩
      rw [hd] at this
      cases this
  · have h1 := (detectMode_title_list_iff q).1 hd
    constructor
    · intro h
      cases h
    · intro h
      exact absurd h1 h.1
  · have h1 := (detectMode_title_speaker_iff q).1 hd
    constructor
    · intro h
      cases h
    · intro h
      exact absurd h1.2 h.2

/-- C3: an explicit mode wins outright (qa maps to general, bypassing
lexical detection), with no explicit mode the lower-cased question is
classified by the strict cues, and the three example questions of the spec
resolve as stated. -/
theorem mode_resolution_spec (q : String) :
    (resolveMode q (some Mode.qa) = InternalMode.general) ∧
    (resolveMode q (some Mode.title_list) = InternalMode.title_list) ∧
    (resolveMode q (some Mode.title_speaker) = InternalMode.title_speaker) ∧
    (resolveMode q none = detectMode q) ∧
    (detectMode q = InternalMode.title_list ↔ TitleListCue q) ∧
    (detectMode q = InternalMode.title_speaker ↔ ¬ TitleListCue q ∧ TitleSpeakerCue q) ∧
    (detectMode q = InternalMode.general ↔ ¬ TitleListCue q ∧ ¬ TitleSpeakerCue q) ∧
    detectMode "Give me exactly 3 TED talk titles about creativity" =
      InternalMode.title_list ∧
    detectMode "List some good titles" = InternalMode.general ∧
    detectMode "Give me the title and speaker for a talk about fear" =
      InternalMode.title_speaker ∧
    resolveMode "Give me exactly 3 TED talk titles about creativity" (some Mode.qa) =
      InternalMode.general :=
  ⟨rfl, rfl, rfl, rfl, detectMode_title_list_iff q, detectMode_title_speaker_iff q,
    detectMode_general_iff q, by decide, by decide, by decide, rfl⟩

/-! Guardrails (C1, C2). -/

lemma str_ne_empty_iff (s : String) : s ≠ "" ↔ s.data ≠ [] := by
  constructor
  · intro h hd
    exact h (String.ext hd)
  · intro h he
    rw [he] at h
    exact h rfl

/-- The response field of the pipeline is the guarded, trimmed model
response. -/
lemma answerQuestion_response (q : String) (req : Option Mode) (raws : List RawMatch)
    (mr : String) :
    (answerQuestion q req raws mr).response =
      guardResponse (resolveMode q req) (buildCandidates (retrieve raws) 8) (strTrim mr) := rfl

lemma guardResponse_general (cands : List RetrievedMatch) (resp : String) :
    guardResponse InternalMode.general cands resp = resp := by
  unfold guardResponse
  simp

lemma guardResponse_title_list (cands : List RetrievedMatch) (resp : String) :
    guardResponse InternalMode.title_list cands resp =
      (if validateTitleListResponse resp cands 3 = true then resp else FALLBACK) := by
  unfold guardResponse
  by_cases h : validateTitleListResponse resp cands 3 = true
  · simp [h]
  · simp only [Bool.not_eq_true] at h
    simp [h]

lemma guardResponse_title_speaker (cands : List RetrievedMatch) (resp : String) :
    guardResponse InternalMode.title_speaker cands resp =
      (if validateTitleSpeakerResponse resp cands = true then resp else FALLBACK) := by
  unfold guardResponse
  by_cases h : validateTitleSpeakerResponse resp cands = true
  · simp [h]
  · simp only [Bool.not_eq_true] at h
    simp [h]

lemma validateTitleList_iff (resp : String) (cands : List RetrievedMatch) (n : Nat) :
    validateTitleListResponse resp cands n = true ↔ TitleListAccepts resp cands n := by
  unfold validateTitleListResponse TitleListAccepts
  by_cases h : (answerLines resp).length = n
  · simp only [h, ne_eq, not_true_eq_false, if_false, List.all_eq_true, List.any_eq_true,
      beq_iff_eq, true_and]
    constructor
    · intro hall l hl
      rcases hall l hl with ⟨c, hc, he⟩
      exact ⟨c, hc, he.symm⟩
    · intro hall l hl
      rcases hall l hl with ⟨c, hc, he⟩
      exact ⟨c, hc, he.symm⟩
  · simp [h]

lemma validateTitleSpeaker_iff (resp : String) (cands : List RetrievedMatch)
    (htitles : ∀ c ∈ cands, c.title ≠ "") :
    validateTitleSpeakerResponse resp cands = true ↔ TitleSpeakerAccepts resp cands := by
  unfold validateTitleSpeakerResponse TitleSpeakerAccepts
  simp only [Bool.and_eq_true, List.any_eq_true]
  constructor
  · rintro ⟨⟨t, htmem, hcont⟩, ⟨s, hsmem, hscont⟩⟩
    rcases List.mem_filter.1 htmem with ⟨htmap, _⟩
    rcases List.mem_map.1 htmap with ⟨c, hc, rfl⟩
    refine ⟨⟨c, hc, (strContains_iff _ _).1 hcont⟩, ?_⟩
    rcases List.mem_filterMap.1 hsmem with ⟨c2, hc2, hmk⟩
    cases hsp : c2.speaker_1 with
    | none => rw [hsp] at hmk; cases hmk
    | some s2 =>
      rw [hsp] at hmk
      dsimp only at hmk
      by_cases hs2 : s2 = ""
      · rw [if_pos hs2] at hmk; cases hmk
      · rw [if_neg hs2] at hmk
        cases hmk
        exact ⟨c2, hc2, s, hsp, hs2, (strContains_iff _ _).1 hscont⟩
  · rintro ⟨⟨c, hc, hsub⟩, ⟨c2, hc2, s, hsp, hsne, hssub⟩⟩
    constructor
    · refine ⟨c.title, List.mem_filter.2 ⟨List.mem_map.2 ⟨c, hc, rfl⟩, ?_⟩,
        (strContains_iff _ _).2 hsub⟩
      have hne : c.title.data ≠ [] := (str_ne_empty_iff _).1 (htitles c hc)
      simpa [List.isEmpty_iff] using hne
    · refine ⟨s, List.mem_filterMap.2 ⟨c2, hc2, ?_⟩, (strContains_iff _ _).2 hssub⟩
      rw [hsp]
      simp [hsne]

/-- The raw index item that normalizes to `candA`. -/
def rawA : RawMatch :=
  { score := some ⟨9, 10, by decide, by decide⟩, talk_id := some "1", id := none,
    title := some "Talk A", speaker_1 := some "Alice", topics := TopicsField.absent,
    chunk := some "alpha", text := none }

/-- The raw index item that normalizes to `candB`. -/
def rawB : RawMatch :=
  { score := some ⟨7, 10, by decide, by decide⟩, talk_id := some "2", id := none,
    title := some "Talk B", speaker_1 := some "Bob", topics := TopicsField.absent,
    chunk := some "beta", text := none }

/-- C1: in title_list mode the guardrail accepts exactly when the answer
splits into exactly 3 trimmed non-empty lines each of which, after leading
bullet and numbering characters are stripped, is the title of some
candidate; a 2-line answer is always rejected; whenever the validator
rejects, the pipeline's final answer is the fixed refusal sentence; and in
the spec's end-to-end scenario (candidates Talk A / Talk B, a 2-line model
answer) the pipeline returns the refusal sentence. -/
theorem titleList_guardrail_spec (resp mr q : String) (cands : List RetrievedMatch)
    (req : Option Mode) (raws : List RawMatch) :
    (validateTitleListResponse resp cands 3 = true ↔ TitleListAccepts resp cands 3) ∧
    ((answerLines resp).length = 2 → validateTitleListResponse resp cands 3 = false) ∧
    (resolveMode q req = InternalMode.title_list →
      validateTitleListResponse (strTrim mr) (buildCandidates (retrieve raws) 8) 3 = false →
      (answerQuestion q req raws mr).response = FALLBACK) ∧
    (answerQuestion "Give me exactly 3 TED talk titles about creativity" none
        [rawA, rawB] "Talk A\nTalk B").response = FALLBACK := by
  refine ⟨validateTitleList_iff resp cands 3, ?_, ?_, by decide⟩
  · intro h2
    unfold validateTitleListResponse
    rw [if_pos]
    rw [h2]
    decide
  · intro hmode hval
    rw [answerQuestion_response, hmode, guardResponse_title_list, if_neg]
    simp [hval]

/-- C1 witness: the theorem's hypotheses discharged at the spec's concrete
scenario — a 2-line answer is rejected and the pipeline substitutes the
refusal sentence. -/
theorem titleList_guardrail_witness :
    validateTitleListResponse "Talk A\nTalk B" [candA, candB] 3 = false ∧
    (answerQuestion "q" (some Mode.title_list) [] "Talk A\nTalk B").response = FALLBACK :=
  ⟨(titleList_guardrail_spec "Talk A\nTalk B" "m" "q" [candA, candB] none []).2.1 (by decide),
   (titleList_guardrail_spec "r" "Talk A\nTalk B" "q" [] (some Mode.title_list) []).2.2.1
     rfl (by decide)⟩

/-- C2: in title_speaker mode the guardrail accepts exactly when the answer
contains some candidate's title and some candidate's non-empty speaker as
exact substrings (candidate titles being non-empty, as retrieval
guarantees); the title and speaker need not come from the same candidate —
the concrete cross-pairing Talk A with Bob is accepted; and whenever the
validator rejects, the pipeline's final answer is the fixed refusal
sentence verbatim. -/
theorem titleSpeaker_guardrail_spec (resp mr q : String) (cands : List RetrievedMatch)
    (req : Option Mode) (raws : List RawMatch) :
    ((∀ c ∈ cands, c.title ≠ "") →
      (validateTitleSpeakerResponse resp cands = true ↔ TitleSpeakerAccepts resp cands)) ∧
    validateTitleSpeakerResponse "Title: Talk A\nSpeaker: Bob" [candA, candB] = true ∧
    (resolveMode q req = InternalMode.title_speaker →
      validateTitleSpeakerResponse (strTrim mr) (buildCandidates (retrieve raws) 8) = false →
      (answerQuestion q req raws mr).response = FALLBACK) := by
  refine ⟨validateTitleSpeaker_iff resp cands, by decide, ?_⟩
  intro hmode hval
  rw [answerQuestion_response, hmode, guardResponse_title_speaker, if_neg]
  simp [hval]

/-- C2 witness: the equivalence discharged at the concrete candidate list of
the spec's scenario, and the rejection path at a question that resolves to
title_speaker with no candidates. -/
theorem titleSpeaker_guardrail_witness :
    (validateTitleSpeakerResponse "Title: Talk A\nSpeaker: Alice" [candA, candB] = true ↔
      TitleSpeakerAccepts "Title: Talk A\nSpeaker: Alice" [candA, candB]) ∧
    (answerQuestion "Give me the title and speaker for a talk about fear" none []
        "anything").response = FALLBACK :=
  ⟨(titleSpeaker_guardrail_spec "Title: Talk A\nSpeaker: Alice" "m" "q" [candA, candB]
      none []).1 (by decide),
   (titleSpeaker_guardrail_spec "r" "anything"
      "Give me the title and speaker for a talk about fear" [] none []).2.2
     (by decide) (by decide)⟩

/-! Guardrail idempotence (C8). -/

lemma validateTitleList_FALLBACK (cands : List RetrievedMatch) :
    validateTitleListResponse FALLBACK cands 3 = false := by
  unfold validateTitleListResponse
  rw [if_pos (by decide)]

/-- C8: the validate-and-substitute step is idempotent in every mode; in
both structured modes it is exactly if-accepted-pass-through-else-refuse;
the refusal sentence itself fails title_list validation structurally (one
non-empty line, not three), so substituting for it is a no-op. -/
theorem guardrail_idempotent (mode : InternalMode) (cands : List RetrievedMatch)
    (resp : String) :
    guardResponse mode cands (guardResponse mode cands resp) =
      guardResponse mode cands resp ∧
    (guardResponse InternalMode.title_list cands resp =
      (if validateTitleListResponse resp cands 3 = true then resp else FALLBACK)) ∧
    (guardResponse InternalMode.title_speaker cands resp =
      (if validateTitleSpeakerResponse resp cands = true then resp else FALLBACK)) ∧
    validateTitleListResponse FALLBACK cands 3 = false ∧
    guardResponse InternalMode.title_list cands FALLBACK = FALLBACK := by
  have hFB := validateTitleList_FALLBACK cands
  refine ⟨?_, guardResponse_title_list cands resp, guardResponse_title_speaker cands resp,
    hFB, ?_⟩
  · cases mode with
    | general => simp [guardResponse_general]
    | title_list =>
      by_cases h : validateTitleListResponse resp cands 3 = true <;>
        simp [guardResponse_title_list, h, hFB]
    | title_speaker =>
      by_cases h : validateTitleSpeakerResponse resp cands = true
      · simp [guardResponse_title_speaker, h]
      · by_cases h2 : validateTitleSpeakerResponse FALLBACK cands = true <;>
          simp [guardResponse_title_speaker, h, h2]
  · simp [guardResponse_title_list, hFB]

/-! Public context (C9). -/

/-- The context field of the pipeline result. -/
lemma answerQuestion_context (q : String) (req : Option Mode) (raws : List RawMatch)
    (mr : String) :
    (answerQuestion q req raws mr).context = (retrieve raws).map toPublicContext := rfl

lemma buildCandidates_le_input (ms : List RetrievedMatch) (cap : Nat) :
    (buildCandidates ms cap).length ≤ ms.length := by
  unfold buildCandidates
  have h1 : (sortByScoreDesc (buildLoop cap (groupByTalkId ms) [])).length =
      (buildLoop cap (groupByTalkId ms) []).length :=
    (sortByScoreDesc_perm _).length_eq
  have h2 := buildLoop_length cap (groupByTalkId ms) []
  have h3 := groupByTalkId_length ms
  simp only [List.length_take, List.length_nil] at *
  omega

/-- A second matching chunk of the same talk as `rawA` (same talk_id). -/
def rawA2 : RawMatch :=
  { score := some ⟨4, 5, by decide, by decide⟩, talk_id := some "1", id := none,
    title := some "Talk A", speaker_1 := some "Alice", topics := TopicsField.absent,
    chunk := some "alpha two", text := none }

/-- C9: the public context of the response is one record per filtered
match — all of them, in the retriever's order — carrying that match's
identifier, title, evidence text and score; it is not restricted to the
candidate set rendered into the prompt: the candidates never outnumber it,
and on a concrete request with two chunks of one talk the context has two
records while the candidate set has one. -/
theorem public_context_spec (q : String) (req : Option Mode) (raws : List RawMatch)
    (mr : String) :
    ((answerQuestion q req raws mr).context = (retrieve raws).map toPublicContext) ∧
    (∀ m : RetrievedMatch, (toPublicContext m).talk_id = m.talk_id ∧
      (toPublicContext m).title = m.title ∧ (toPublicContext m).chunk = m.chunk ∧
      (toPublicContext m).score = m.score) ∧
    ((answerQuestion q req raws mr).context.length = (retrieve raws).length) ∧
    ((buildCandidates (retrieve raws) 8).length ≤
      (answerQuestion q req raws mr).context.length) ∧
    (answerQuestion "x" none [rawA, rawA2] "y").context.length = 2 ∧
    (buildCandidates (retrieve [rawA, rawA2]) 8).length = 1 := by
  refine ⟨rfl, fun m => ⟨rfl, rfl, rfl, rfl⟩, ?_, ?_, by decide, by decide⟩
  · rw [answerQuestion_context, List.length_map]
  · rw [answerQuestion_context, List.length_map]
    exact buildCandidates_le_input _ 8

/-! No-speaker rejection (C10). -/

/-- C10: in title_speaker mode, if no candidate carries a non-empty speaker
— in particular when the candidate list is empty — the guardrail rejects
every answer, and the pipeline's final answer is the refusal sentence no
matter what the model returned. -/
theorem no_speaker_always_refuses (resp mr q : String) (cands : List RetrievedMatch)
    (req : Option Mode) (raws : List RawMatch) :
    ((∀ c ∈ cands, c.speaker_1 = none ∨ c.speaker_1 = some "") →
      validateTitleSpeakerResponse resp cands = false) ∧
    validateTitleSpeakerResponse resp [] = false ∧
    (resolveMode q req = InternalMode.title_speaker →
      (∀ c ∈ buildCandidates (retrieve raws) 8,
        c.speaker_1 = none ∨ c.speaker_1 = some "") →
      (answerQuestion q req raws mr).response = FALLBACK) := by
  have hmain : ∀ (r : String) (cs : List RetrievedMatch),
      (∀ c ∈ cs, c.speaker_1 = none ∨ c.speaker_1 = some "") →
      validateTitleSpeakerResponse r cs = false := by
    intro r cs hcs
    unfold validateTitleSpeakerResponse
    have hsp : (cs.filterMap fun c => match c.speaker_1 with
        | some s => if s = "" then none else some s
        | none => none) = [] := by
      rw [List.filterMap_eq_nil_iff]
      intro c hc
      rcases hcs c hc with h | h <;> simp [h]
    rw [hsp]
    simp
  refine ⟨hmain resp cands, hmain resp [] (by simp), ?_⟩
  intro hmode hcs
  rw [answerQuestion_response, hmode, guardResponse_title_speaker, if_neg]
  simp [hmain (strTrim mr) _ hcs]

/-- C10 witness: the empty candidate list rejects a well-formed answer, and
a question that auto-detects to title_speaker with no retrieval results
yields the refusal sentence whatever the model said. -/
theorem no_speaker_always_refuses_witness :
    validateTitleSpeakerResponse "Title: X\nSpeaker: Y" [] = false ∧
    (answerQuestion "Provide the title and speaker" none [] "whatever").response =
      FALLBACK :=
  ⟨(no_speaker_always_refuses "Title: X\nSpeaker: Y" "m" "q" [] none []).2.1,
   (no_speaker_always_refuses "r" "whatever" "Provide the title and speaker" [] none
      []).2.2 (by decide) (by decide)⟩

/-! Evidence clipping (C6). -/

lemma strAppend_assoc (a b c : String) : a ++ b ++ c = a ++ (b ++ c) :=
  String.ext (by simp [strData_append, List.append_assoc])

/-- C6 counterexample: evidence whose whitespace is not already collapsed
is rendered verbatim by clip (its length is under the cap); collapsing
"a  b" as the claim describes gives "a b", so the two renderings differ. -/
theorem clip_noCollapse_cex :
    clip "a  b" 900 = "a  b" ∧ collapseWs "a  b" = "a b" ∧
    clip "a  b" 900 ≠ clip (collapseWs "a  b") 900 := by
  refine ⟨?_, ?_, ?_⟩ <;> decide

/-- C6 (amended): the evidence rendered into a candidate entry is
clip(chunk, 900) with no whitespace collapsing: text of at most 900
characters round-trips verbatim (clip is the identity exactly on such
text), longer text becomes its first 899 characters plus the one-character
ellipsis marker (total length exactly 900), and the clipped chunk occurs
verbatim inside the rendered candidate entry. -/
theorem clip_spec (text : String) (i : Nat) (c : RetrievedMatch) :
    (clip text 900 = if text.data.length ≤ 900 then text
      else (⟨text.data.take 899⟩ : String) ++ "…") ∧
    (clip text 900).data.length = min text.data.length 900 ∧
    (clip text 900 = text ↔ text.data.length ≤ 900) ∧
    IsSubstr (clip c.chunk 900) (candidateEntry i c) := by
  have hlen : (clip text 900).data.length = min text.data.length 900 := by
    unfold clip
    by_cases h : text.data.length ≤ 900
    · rw [if_pos h]
      omega
    · rw [if_neg h]
      rw [strData_append, List.length_append, List.length_take]
      have h1 : ("…" : String).data.length = 1 := by decide
      simp only [h1]
      omega
  refine ⟨rfl, hlen, ?_, ?_⟩
  · constructor
    · intro he
      have := congrArg (fun s => s.data.length) he
      simp only [hlen] at this
      omega
    · intro h
      unfold clip
      rw [if_pos h]
  · refine ⟨"[#" ++ toString (i + 1) ++ "] talk_id=" ++ c.talk_id ++ "\n" ++
      ("TITLE: " ++ c.title) ++ "\n" ++ ("SPEAKER: " ++ c.speaker_1.getD "") ++ "\n" ++
      ("TOPICS: " ++ jsonStringArray (cleanTopicList c.topics)) ++ "\n" ++
      "EVIDENCE:\n\"", "\"" ++ "\n" ++ ("SCORE: " ++ toString c.score), ?_⟩
    apply String.ext
    simp [candidateEntry, joinSep, strData_append, List.append_assoc]

/-! Topics normalization (C7). -/

lemma dropWhile_dropWhile (p : Char → Bool) (l : List Char) :
    (l.dropWhile p).dropWhile p = l.dropWhile p := by
  induction l with
  | nil => simp
  | cons x xs ih =>
    by_cases h : p x = true
    · simp [List.dropWhile_cons, h, ih]
    · simp [List.dropWhile_cons, h]

lemma dropWhile_eq_self_of_prefix (p : Char → Bool) {l q : List Char}
    (h : l.dropWhile p = l) (hpre : q <+: l) : q.dropWhile p = q := by
  cases q with
  | nil => simp
  | cons a t =>
    cases l with
    | nil =>
      obtain ⟨r, hr⟩ := hpre
      cases hr
    | cons b s =>
      obtain ⟨r, hr⟩ := hpre
      rw [List.cons_append] at hr
      injection hr with h1 h2
      have hpb : p b = false := by
        by_contra hc
        have hpb' : p b = true := by simpa using hc
        rw [List.dropWhile_cons, if_pos hpb'] at h
        have hlen := congrArg List.length h
        have hle := (List.dropWhile_suffix p (l := s)).sublist.length_le
        simp only [List.length_cons] at hlen
        omega
      rw [List.dropWhile_cons]
      rw [h1, hpb]
      simp

lemma rtrim_prefix (p : Char → Bool) (l : List Char) :
    (l.reverse.dropWhile p).reverse <+: l := by
  have h : l.reverse.dropWhile p <:+ l.reverse := List.dropWhile_suffix p
  have h2 : (l.reverse.dropWhile p).reverse <+: l.reverse.reverse :=
    List.reverse_prefix.2 h
  simpa using h2

lemma trimChars_idem (l : List Char) : trimChars (trimChars l) = trimChars l := by
  unfold trimChars
  have hfront : (l.dropWhile isWs).dropWhile isWs = l.dropWhile isWs :=
    dropWhile_dropWhile _ _
  have hpre : (((l.dropWhile isWs).reverse.dropWhile isWs).reverse) <+: l.dropWhile isWs :=
    rtrim_prefix _ _
  have hfront2 : (((l.dropWhile isWs).reverse.dropWhile isWs).reverse).dropWhile isWs =
      ((l.dropWhile isWs).reverse.dropWhile isWs).reverse :=
    dropWhile_eq_self_of_prefix _ hfront hpre
  rw [hfront2, List.reverse_reverse, dropWhile_dropWhile]

lemma strTrim_idem (s : String) : strTrim (strTrim s) = strTrim s :=
  String.ext (trimChars_idem s.data)

lemma splitTopicsString_mem {s t : String} (h : t ∈ splitTopicsString s) :
    t ≠ "" ∧ strTrim t = t := by
  unfold splitTopicsString at h
  rcases List.mem_map.1 h with ⟨l, hl, rfl⟩
  rcases List.mem_filter.1 hl with ⟨hl2, hne⟩
  rcases List.mem_map.1 hl2 with ⟨l0, _, rfl⟩
  constructor
  · rw [str_ne_empty_iff]
    simpa [List.isEmpty_iff] using hne
  · exact String.ext (trimChars_idem l0)

lemma dedupFirst_nodup (xs : List String) :
    ∀ seen, (dedupFirst seen xs).Nodup ∧ ∀ x ∈ dedupFirst seen xs, x ∉ seen := by
  induction xs with
  | nil => intro seen; simp [dedupFirst]
  | cons x xs ih =>
    intro seen
    by_cases h : x ∈ seen
    · simp only [dedupFirst, if_pos h]
      exact ih seen
    · simp only [dedupFirst, if_neg h]
      obtain ⟨hnd, hmem⟩ := ih (x :: seen)
      refine ⟨List.nodup_cons.2 ⟨?_, hnd⟩, ?_⟩
      · intro hx
        exact (hmem x hx) (List.mem_cons_self _ _)
      · intro y hy
        rcases List.mem_cons.1 hy with rfl | hy
        · exact h
        · intro hys
          exact hmem y hy (List.mem_cons_of_mem _ hys)

lemma cleanTopicList_props (topics : Option (List String)) :
    (cleanTopicList topics).Nodup ∧ (cleanTopicList topics).length ≤ 12 := by
  unfold cleanTopicList
  cases topics with
  | none => simp
  | some ts =>
    by_cases h : ts.isEmpty = true
    · simp [h]
    · simp only [Bool.not_eq_true] at h
      simp only [h, Bool.false_eq_true, if_false]
      constructor
      · exact ((dedupFirst_nodup _ []).1).sublist (List.take_sublist _ _)
      · exact List.length_take_le _ _

/-- The raw item of the spec's topics example, topics as a string. -/
def rawTopicsStr : RawMatch :=
  { score := some 1, talk_id := some "t1", id := none, title := some "Talk T",
    speaker_1 := none, topics := TopicsField.str "a, b, b",
    chunk := some "evidence text", text := none }

/-- The raw item of the spec's topics example, topics as a list. -/
def rawTopicsList : RawMatch :=
  { score := some 1, talk_id := some "t1", id := none, title := some "Talk T",
    speaker_1 := none, topics := TopicsField.list ["a", " b "],
    chunk := some "evidence text", text := none }

/-- C7 counterexample: the Match built at retrieval time does NOT carry an
ordered deduplicated set of trimmed topics: the string "a, b, b" keeps the
duplicate b, and the list ["a", " b "] keeps " b " untrimmed. -/
theorem topics_retrieval_cex :
    (normalizeRaw rawTopicsStr).map (fun m => m.topics) = some (some ["a", "b", "b"]) ∧
    (normalizeRaw rawTopicsList).map (fun m => m.topics) = some (some ["a", " b "]) ∧
    some (some (["a", "b", "b"] : List String)) ≠ some (some ["a", "b"]) ∧
    some (some (["a", " b "] : List String)) ≠ some (some ["a", "b"]) := by
  refine ⟨?_, ?_, ?_, ?_⟩ <;> decide

/-- C7 (amended): at retrieval time the string topics field is split on
commas, trimmed and filtered to non-empty entries but not deduplicated,
and a list field arrives verbatim; the full normalization to an ordered
set of trimmed non-empty strings happens in cleanTopicList at prompt
rendering, where the string "a, b, b" (split at retrieval into
["a", "b", "b"]) and the list ["a", " b "] both yield ["a", "b"];
cleanTopicList output is always duplicate-free with at most 12 entries. -/
theorem topics_normalization_spec (s : String) (topics : Option (List String)) :
    (∀ r : RawMatch, ∀ xs : List String, r.topics = TopicsField.list xs →
      rawTopics r = some xs) ∧
    (∀ r : RawMatch, r.topics = TopicsField.str s →
      rawTopics r = some (splitTopicsString s)) ∧
    (∀ t ∈ splitTopicsString s, t ≠ "" ∧ strTrim t = t) ∧
    (cleanTopicList topics).Nodup ∧ (cleanTopicList topics).length ≤ 12 ∧
    splitTopicsString "a, b, b" = ["a", "b", "b"] ∧
    cleanTopicList (some ["a", "b", "b"]) = ["a", "b"] ∧
    cleanTopicList (some ["a", " b "]) = ["a", "b"] := by
  obtain ⟨h1, h2⟩ := cleanTopicList_props topics
  refine ⟨?_, ?_, fun t ht => splitTopicsString_mem ht, h1, h2,
    by decide, by decide, by decide⟩
  · intro r xs h
    simp [rawTopics, h]
  · intro r h
    simp [rawTopics, h]

/-- C7 witness: the trimmed-and-non-empty property discharged at a concrete
entry the string branch produces. -/
theorem topics_normalization_witness :
    ("a" : String) ≠ "" ∧ strTrim "a" = "a" :=
  (topics_normalization_spec "a, b, b" none).2.2.1 "a" (by decide)

end TedRag
